import Mathlib

/-!
# KID-FAX message pipeline: shallow embedding and verification

This file embeds the ingestion–deduplication–rendering pipeline of the
KID-FAX repository (`kidfax/sms_poller.py` and `kidfax/telegram_poller.py`)
in Lean 4 and proves properties of it.

Modelling conventions:
* Python strings are Lean `String`s (with a `List Char` core for word
  wrapping, since Python iterates over characters).
* The JSON values produced by `json.dumps` / consumed by `json.loads` are
  modelled by the inductive `Json`; a state file on disk is
  `Option (Option Json)`: `none` = the file does not exist, `some none` =
  the file exists but its contents do not parse as JSON (e.g. a truncated
  write), `some (some j)` = the file parses to the JSON value `j`.
* Python `set` objects are `Finset`s; Python lists are Lean `List`s.
* Configuration read from the environment at start-up (`ALLOWLIST`,
  `CONTACTS`, `KIDFAX_STATE_LIMIT`, `PRINTER_LINE_WIDTH`, ...) becomes
  explicit parameters of the embedded functions.
* The printer sink is modelled by a success oracle: processing a message
  either writes it to the sink and succeeds, or raises an exception
  (modelled by the oracle returning `false`), which aborts the current
  batch exactly as the `try`/`except` in `poll_loop` does.
-/

namespace KidFax

/-- JSON values, the image of Python's `json.loads`/`json.dumps`. -/
inductive Json where
  | null
  | bool (b : Bool)
  | num (n : Int)
  | str (s : String)
  | arr (elems : List Json)
  | obj (fields : List (String × Json))

/-- A state file on disk: `none` = absent, `some none` = present but not
parseable as JSON, `some (some j)` = parses to `j`. -/
abbrev FileState := Option (Option Json)

/-- Python's `data.get(key, default)` on a parsed JSON value: returns the
field if `data` is an object that has the key. (On a non-object, `.get`
raises `AttributeError`, which the callers' `except` clauses catch;
callers therefore treat `none` from a non-object like a parse failure.) -/
def Json.getField (j : Json) (key : String) : Option Json :=
  match j with
  | .obj fields => fields.lookup key
  | _ => none

/-- Is `j` an object at all? Models `isinstance(data, dict)` implicitly:
calling `.get` on a non-dict raises. -/
def Json.isObj (j : Json) : Bool :=
  match j with
  | .obj _ => true
  | _ => false

/-- Decode a list of JSON values that are all strings. -/
def decodeStrs : List Json → Option (List String)
  | [] => some []
  | .str s :: rest => (decodeStrs rest).map (s :: ·)
  | _ => none

/-- Decode a list of JSON values that are all numbers. -/
def decodeInts : List Json → Option (List Int)
  | [] => some []
  | .num n :: rest => (decodeInts rest).map (n :: ·)
  | _ => none

/-- Decode a JSON array whose elements are all strings into the list of
those strings.  `_save_state` in `sms_poller.py` only ever writes string
arrays under `"seen_sids"`, so this is the shape `_load_state` reads back. -/
def Json.asStrList? (j : Json) : Option (List String) :=
  match j with
  | .arr elems => decodeStrs elems
  | _ => none

/-- Decode a JSON array whose elements are all numbers into the list of
those integers.  `_save_state` in `telegram_poller.py` only ever writes
integer arrays under `"seen_update_ids"`. -/
def Json.asIntList? (j : Json) : Option (List Int) :=
  match j with
  | .arr elems => decodeInts elems
  | _ => none

/-- Python's `order[-m:]` for a non-negative `m`: the last `m` elements,
except that `order[-0:]` is the whole list. -/
def lastSlice {α : Type} (m : Nat) (order : List α) : List α :=
  if m = 0 then order else order.drop (order.length - m)

section StateStore

/-- `sms_poller._save_state`: the JSON payload written, an object holding
only the `"seen_sids"` key with the last `MAX_STATE` ids.
Source: `payload = {"seen_sids": order[-MAX_STATE:]}`. -/
def smsSavePayload (maxState : Nat) (order : List String) : Json :=
  .obj [("seen_sids", .arr ((lastSlice maxState order).map .str))]

/-- `telegram_poller._save_state`: the JSON payload written, an object
holding only the `"seen_update_ids"` key with the last `MAX_STATE` ids.
Source: `payload = {"seen_update_ids": order[-MAX_STATE:]}`. -/
def tgSavePayload (maxState : Nat) (order : List Int) : Json :=
  .obj [("seen_update_ids", .arr ((lastSlice maxState order).map .num))]

/-- `sms_poller._load_state`: read the state file; absent, unparseable or
wrongly-shaped contents yield the empty ledger (the `try`/`except` in the
source catches every exception and "starts fresh"). -/
def smsLoadState (file : FileState) : List String × Finset String :=
  match file with
  | none => ([], ∅)
  | some none => ([], ∅)
  | some (some data) =>
    match data.getField "seen_sids" with
    | some v =>
      match v.asStrList? with
      | some order => (order, order.toFinset)
      | none => ([], ∅)
    | none =>
      -- `data.get("seen_sids", [])` returns `[]` when the key is missing
      -- (and raises, caught by the `except`, when `data` is not a dict).
      ([], ∅)

/-- `telegram_poller._load_state`: same shape over integer update ids. -/
def tgLoadState (file : FileState) : List Int × Finset Int :=
  match file with
  | none => ([], ∅)
  | some none => ([], ∅)
  | some (some data) =>
    match data.getField "seen_update_ids" with
    | some v =>
      match v.asIntList? with
      | some order => (order, order.toFinset)
      | none => ([], ∅)
    | none => ([], ∅)

/-- A file-system operation performed by a persist call. -/
inductive FsOp where
  | writeFile (path : String) (content : Json)
  | rename (src dst : String)

/-- The trace of file-system operations performed by
`sms_poller._save_state`.  Source:
`STATE_FILE.write_text(json.dumps(payload), encoding="utf-8")` —
a single direct write to the state file path. -/
def smsSaveStateOps (statePath : String) (maxState : Nat)
    (order : List String) : List FsOp :=
  [.writeFile statePath (smsSavePayload maxState order)]

/-- The trace of file-system operations performed by
`telegram_poller._save_state`; likewise a single direct write. -/
def tgSaveStateOps (statePath : String) (maxState : Nat)
    (order : List Int) : List FsOp :=
  [.writeFile statePath (tgSavePayload maxState order)]

/-- The effect of `_save_state` on the state file when the write
completes: the file now parses to exactly the payload (the previous
contents are replaced wholesale). -/
def smsSaveState (maxState : Nat) (order : List String) : FileState :=
  some (some (smsSavePayload maxState order))

/-- The effect of `telegram_poller._save_state` on the state file when
the write completes. -/
def tgSaveState (maxState : Nat) (order : List Int) : FileState :=
  some (some (tgSavePayload maxState order))

/-- Modelled from the spec (§4.1): the claimed persistence discipline —
write the payload to a temporary file, then rename it over the state
file.  This definition follows the spec's words so that it can be
compared with the trace the source actually produces. -/
def isTempThenReplace (statePath : String) (ops : List FsOp) : Prop :=
  ∃ tmpPath payload, tmpPath ≠ statePath ∧
    ops = [.writeFile tmpPath payload, .rename tmpPath statePath]

end StateStore

section Eviction

variable {α : Type} [DecidableEq α]

/-- One `pop(0)`/`discard` pair repeated `n` times, the body of the
overflow loop shared by both pollers:
`for _ in range(overflow): oldest = seen_order.pop(0); seen.discard(oldest)`.
(The empty-list case would raise `IndexError` in Python; it is unreachable
because the loop runs `len(seen_order) - MAX_STATE ≤ len(seen_order)` times.) -/
def evictN : Nat → List α → Finset α → List α × Finset α
  | 0, order, seen => (order, seen)
  | _ + 1, [], seen => ([], seen)
  | n + 1, oldest :: rest, seen => evictN n rest (seen.erase oldest)

/-- The guarded eviction step run by both `poll_loop`s after a dirty batch:
`overflow = len(seen_order) - MAX_STATE; if overflow > 0: ...`. -/
def evictOverflow (maxState : Nat) (order : List α) (seen : Finset α) :
    List α × Finset α :=
  if maxState < order.length then evictN (order.length - maxState) order seen
  else (order, seen)

/-- The Seen-Set representation invariant (`SeenRecord` in the spec's data
model): the membership set is exactly the contents of the ordered
sequence, which holds no duplicates. -/
def ledgerInv (order : List α) (seen : Finset α) : Prop :=
  order.Nodup ∧ seen = order.toFinset

end Eviction

/-- Is `p` an initial segment of `s`? Char-level core of Python's
`str.startswith` (Lean's own `String.startsWith` does not reduce
definitionally, so the semantics is spelled out). -/
def startsWithChars : List Char → List Char → Bool
  | _, [] => true
  | [], _ :: _ => false
  | c :: cs, p :: ps => c = p && startsWithChars cs ps

/-- Python `s.startswith(p)`. -/
def pyStartsWith (s p : String) : Bool :=
  startsWithChars s.data p.data

/-- Python's `x or default` over an optional string: `None` and the empty
string are both falsy. Used for `message.from_ or "Unknown"` and
`message.body or ""`. -/
def pyOr (v : Option String) (default : String) : String :=
  match v with
  | some s => if s = "" then default else s
  | none => default

section WordWrap

/-- Split a character sequence at every `'\n'`, keeping empty segments;
`splitOnNl [] = [[]]`. The char-level core of Python's `str.splitlines`
(whose other, exotic line boundaries do not occur in this pipeline). -/
def splitOnNl : List Char → List (List Char)
  | [] => [[]]
  | c :: cs =>
    if c = '\n' then [] :: splitOnNl cs
    else
      match splitOnNl cs with
      | [] => [[c]]
      | l :: ls => (c :: l) :: ls

/-- Python `str.splitlines` over `'\n'`-separated text: the empty string
yields `[]`, and a trailing newline does not produce a trailing empty
line. -/
def pySplitlinesChars (s : List Char) : List (List Char) :=
  if s = [] then []
  else if s.getLast? = some '\n' then (splitOnNl s).dropLast
  else splitOnNl s

/-- `str.splitlines` lifted to `String`. -/
def pySplitlines (s : String) : List String :=
  (pySplitlinesChars s.data).map (fun cs => ⟨cs⟩)

/-- Greedy line filling: `cur` is the line under construction; each next
word is appended (with a single separating space) when the result still
fits in `width`, otherwise the line is emitted and the word starts a new
line. -/
def greedyFill (width : Nat) : List String → String → List String
  | [], cur => [cur]
  | w :: ws, cur =>
    if cur.length + 1 + w.length ≤ width then
      greedyFill width ws (cur ++ " " ++ w)
    else
      cur :: greedyFill width ws w

/-- Helper for `pyWords`: `cur` accumulates the current word reversed. -/
def pyWordsAux : List Char → List Char → List String
  | [], cur => if cur = [] then [] else [⟨cur.reverse⟩]
  | c :: cs, cur =>
    if c.isWhitespace then
      if cur = [] then pyWordsAux cs []
      else ⟨cur.reverse⟩ :: pyWordsAux cs []
    else pyWordsAux cs (c :: cur)

/-- Python `para.split()` with no argument: the maximal runs of
non-whitespace characters, leading/trailing/repeated whitespace ignored. -/
def pyWords (para : String) : List String :=
  pyWordsAux para.data []

/-- Model of the stdlib `textwrap.wrap(para, width)` with its default
options on the inputs this pipeline feeds it: the paragraph is split into
whitespace-separated words and greedily filled into lines of at most
`width` characters, with no hyphen ever inserted; a paragraph with no
words yields `[]`. (The library's breaking of single words longer than
`width` and its hyphen break points are not exercised by the verified
properties.) -/
def textwrapWrap (width : Nat) (para : String) : List String :=
  match pyWords para with
  | [] => []
  | w :: ws => greedyFill width ws w

/-- `wrapped = textwrap.wrap(para, width=LINE_WIDTH) or [""]`: an empty
wrap result (empty source line) is preserved as one empty output line. -/
def wrapPara (width : Nat) (para : String) : List String :=
  match textwrapWrap width para with
  | [] => [""]
  | ls => ls

/-- `_wrap_text` (identical in both pollers): split the body on line
breaks first (`value.splitlines() or [""]`), then wrap each paragraph
independently and concatenate. -/
def wrapText (width : Nat) (value : String) : List String :=
  let paras :=
    match pySplitlines value with
    | [] => [""]
    | ps => ps
  paras.flatMap (wrapPara width)

/-- Join a list of lines into one character sequence with a single `'\n'`
between consecutive lines (the inverse direction of `splitOnNl`). -/
def joinNl : List (List Char) → List Char
  | [] => []
  | [p] => p
  | p :: rest => p ++ '\n' :: joinNl rest

end WordWrap

section SmsPoller

/-- A Twilio message record as consumed by `sms_poller.py`: the fields the
poller reads. `direction` is `getattr(msg, "direction", "") or ""`, so a
missing or `None` direction is modelled as `""`. -/
structure SmsMsg where
  sid : String
  direction : String
  sender : Option String
  body : Option String
deriving DecidableEq, Repr

/-- `sms_poller._fetch_messages`: walk the provider window most-recent-first
list in reverse (chronological) order, keeping messages whose sid is not in
the Seen-Set and whose direction starts with `"inbound"`. -/
def smsFetchMessages (window : List SmsMsg) (seen : Finset String) :
    List SmsMsg :=
  window.reverse.filter
    (fun m => decide (m.sid ∉ seen) && pyStartsWith m.direction "inbound")

/-- `sms_poller._should_print`: authorized iff the allowlist is empty or the
sender is a member. -/
def smsShouldPrint (allowlist : Finset String) (sender : String) : Bool :=
  if allowlist = ∅ then true else decide (sender ∈ allowlist)

/-- `sms_poller._contact_label`: reverse-lookup the number in the contact
map; if found the label is `"{name} ({number})"`, else the number alone. -/
def contactLabel (contacts : List (String × String)) (number : String) :
    String :=
  match contacts.find? (fun nv => nv.2 = number) with
  | some nv => nv.1 ++ " (" ++ number ++ ")"
  | none => number

/-- In-memory mutable state of the SMS `poll_loop`. -/
structure SmsState where
  seenOrder : List String
  seen : Finset String
  lastSender : Option String
deriving DecidableEq

/-- Result of running the `for message in new_messages:` loop body over a
batch: the state as of loop exit (or as of the raising message), the
`printed_now` and `state_dirty` locals, the sink writes that completed, and
whether the loop ran to completion (`ok = false` models `_print_message`
raising, which aborts the batch into the `except` clause). -/
structure SmsBatchResult where
  state : SmsState
  printedNow : Nat
  stateDirty : Bool
  writes : List SmsMsg
  ok : Bool
deriving DecidableEq

/-- The `for message in new_messages:` loop of `sms_poller.poll_loop`.
`sinkOk m = false` models `_print_message` raising on `m`'s write. -/
def smsRunBatch (allowlist : Finset String) (contacts : List (String × String))
    (sinkOk : SmsMsg → Bool) :
    List SmsMsg → SmsState → Nat → Bool → List SmsMsg → SmsBatchResult
  | [], st, printed, dirty, writes => ⟨st, printed, dirty, writes, true⟩
  | m :: rest, st, printed, dirty, writes =>
    let sender := pyOr m.sender "Unknown"
    if smsShouldPrint allowlist sender then
      if sinkOk m then
        smsRunBatch allowlist contacts sinkOk rest
          { seenOrder := st.seenOrder ++ [m.sid],
            seen := insert m.sid st.seen,
            lastSender := some (contactLabel contacts sender) }
          (printed + 1) true (writes ++ [m])
      else
        ⟨st, printed, dirty, writes, false⟩
    else
      smsRunBatch allowlist contacts sinkOk rest
        { st with seenOrder := st.seenOrder ++ [m.sid],
                  seen := insert m.sid st.seen }
        printed true writes

/-- Result of one whole iteration of the SMS `poll_loop`'s `try` block.
`saved` observes the argument of the `_save_state` call, if one was made. -/
structure SmsCycleResult where
  state : SmsState
  file : FileState
  writes : List SmsMsg
  saved : Option (List String)
  ok : Bool

/-- The fetch-then-process part of one SMS `poll_loop` iteration:
`new_messages = _fetch_messages(client, twilio_number, seen)` followed by
the `for message in new_messages:` loop. -/
def smsCycleBatch (allowlist : Finset String)
    (contacts : List (String × String)) (sinkOk : SmsMsg → Bool)
    (window : List SmsMsg) (st : SmsState) : SmsBatchResult :=
  smsRunBatch allowlist contacts sinkOk (smsFetchMessages window st.seen)
    st 0 false []

/-- One iteration of `sms_poller.poll_loop` with a connected printer:
fetch, process the batch, and — only when the batch ran to completion and
dirtied the state — evict overflow and persist. An exception skips
eviction and persistence, leaving the file untouched. -/
def smsCycle (allowlist : Finset String) (contacts : List (String × String))
    (maxState : Nat) (sinkOk : SmsMsg → Bool) (window : List SmsMsg)
    (st : SmsState) (file : FileState) : SmsCycleResult :=
  let r := smsCycleBatch allowlist contacts sinkOk window st
  if r.ok then
    if r.stateDirty then
      let evicted := evictOverflow maxState r.state.seenOrder r.state.seen
      ⟨{ r.state with seenOrder := evicted.1, seen := evicted.2 },
        smsSaveState maxState evicted.1, r.writes, some evicted.1, true⟩
    else
      ⟨r.state, file, r.writes, none, true⟩
  else
    ⟨r.state, file, r.writes, none, false⟩

end SmsPoller

section TelegramPoller

/-- The message payload of a Telegram update, as extracted by
`telegram_poller._extract_message_data` (`chat_id`, text/caption, optional
photo file id, sender name). -/
structure TgMessage where
  chatId : Int
  text : String
  photo : Option String
  senderName : String
deriving DecidableEq

/-- A Telegram update: `_extract_message_data` returns `None` exactly when
the update carries no `'message'` key, modelled by `message = none`. -/
structure TgUpdate where
  updateId : Int
  message : Option TgMessage
deriving DecidableEq

/-- `telegram_poller._contact_label` over integer chat ids. -/
def tgContactLabel (contacts : List (String × Int)) (chatId : Int) : String :=
  match contacts.find? (fun nv => nv.2 = chatId) with
  | some nv => nv.1 ++ " (" ++ toString chatId ++ ")"
  | none => toString chatId

/-- `offset = last_update_id + 1 if last_update_id else None`: Python
truthiness makes both `None` and `0` yield no offset. -/
def tgOffset (lastUpdateId : Option Int) : Option Int :=
  match lastUpdateId with
  | some n => if n = 0 then none else some (n + 1)
  | none => none

/-- Model of the external Telegram `getUpdates` API consumed by
`_get_updates`: with no offset every pending update is returned; with
offset `o` only updates with id ≥ `o` are returned (the server treats all
earlier updates as confirmed and never resends them). -/
def tgGetUpdates (pending : List TgUpdate) (offset : Option Int) :
    List TgUpdate :=
  match offset with
  | none => pending
  | some o => pending.filter (fun u => decide (o ≤ u.updateId))

/-- In-memory mutable state of the Telegram `poll_loop`, including the
`last_update_id` cursor (held only in memory, never persisted). -/
structure TgState where
  seenOrder : List Int
  seen : Finset Int
  lastSender : Option String
  lastUpdateId : Option Int
deriving DecidableEq

/-- Result of the `for update in updates:` loop, analogous to
`SmsBatchResult`. -/
structure TgBatchResult where
  state : TgState
  printedNow : Nat
  stateDirty : Bool
  writes : List TgUpdate
  ok : Bool
deriving DecidableEq

/-- The `for update in updates:` loop of `telegram_poller.poll_loop`.
Note the order mirrored from the source: `last_update_id` is assigned
first, before the seen check, the `_extract_message_data` check, the
allowlist check and the print attempt. -/
def tgRunBatch (allowlist : Finset Int) (contacts : List (String × Int))
    (sinkOk : TgUpdate → Bool) :
    List TgUpdate → TgState → Nat → Bool → List TgUpdate → TgBatchResult
  | [], st, printed, dirty, writes => ⟨st, printed, dirty, writes, true⟩
  | u :: rest, st, printed, dirty, writes =>
    let st1 : TgState := { st with lastUpdateId := some u.updateId }
    if u.updateId ∈ st1.seen then
      tgRunBatch allowlist contacts sinkOk rest st1 printed dirty writes
    else
      match u.message with
      | none =>
        tgRunBatch allowlist contacts sinkOk rest
          { st1 with seenOrder := st1.seenOrder ++ [u.updateId],
                     seen := insert u.updateId st1.seen }
          printed true writes
      | some msg =>
        if allowlist ≠ ∅ ∧ msg.chatId ∉ allowlist then
          tgRunBatch allowlist contacts sinkOk rest
            { st1 with seenOrder := st1.seenOrder ++ [u.updateId],
                       seen := insert u.updateId st1.seen }
            printed true writes
        else if sinkOk u then
          tgRunBatch allowlist contacts sinkOk rest
            { seenOrder := st1.seenOrder ++ [u.updateId],
              seen := insert u.updateId st1.seen,
              lastSender := some (tgContactLabel contacts msg.chatId),
              lastUpdateId := st1.lastUpdateId }
            (printed + 1) true (writes ++ [u])
        else
          ⟨st1, printed, dirty, writes, false⟩

/-- Result of one whole iteration of the Telegram `poll_loop`'s `try`
block. `saved` observes the argument of the `_save_state` call, if any. -/
structure TgCycleResult where
  state : TgState
  file : FileState
  writes : List TgUpdate
  saved : Option (List Int)
  ok : Bool

/-- The fetch-then-process part of one Telegram `poll_loop` iteration:
compute the offset from the cursor, fetch from the server model, then run
the `for update in updates:` loop. -/
def tgCycleBatch (allowlist : Finset Int) (contacts : List (String × Int))
    (sinkOk : TgUpdate → Bool) (pending : List TgUpdate) (st : TgState) :
    TgBatchResult :=
  tgRunBatch allowlist contacts sinkOk
    (tgGetUpdates pending (tgOffset st.lastUpdateId)) st 0 false []

/-- One iteration of `telegram_poller.poll_loop` with a connected printer:
compute the offset from the cursor, fetch from the server model, process
the batch, and — only on a completed dirty batch — evict and persist. -/
def tgCycle (allowlist : Finset Int) (contacts : List (String × Int))
    (maxState : Nat) (sinkOk : TgUpdate → Bool) (pending : List TgUpdate)
    (st : TgState) (file : FileState) : TgCycleResult :=
  let r := tgCycleBatch allowlist contacts sinkOk pending st
  if r.ok then
    if r.stateDirty then
      let evicted := evictOverflow maxState r.state.seenOrder r.state.seen
      ⟨{ r.state with seenOrder := evicted.1, seen := evicted.2 },
        tgSaveState maxState evicted.1, r.writes, some evicted.1, true⟩
    else
      ⟨r.state, file, r.writes, none, true⟩
  else
    ⟨r.state, file, r.writes, none, false⟩

end TelegramPoller

section LostMessageScenario

/-- A well-formed Telegram update carrying an ordinary authorized
text message (update id 5, chat id 42, empty allowlist in the scenario). -/
def lostUpdate : TgUpdate :=
  ⟨5, some ⟨42, "hi", none, "Kid"⟩⟩

/-- Cycle one of the loss scenario: fresh state, empty allowlist, and the
printer raises while writing `lostUpdate`'s receipt. -/
def tgFailCycle : TgCycleResult :=
  tgCycle ∅ [] 5000 (fun _ => false) [lostUpdate] ⟨[], ∅, none, none⟩ none

/-- Cycle two of the loss scenario: the update is still pending on the
server side, and every printer write now succeeds. -/
def tgRetryCycle : TgCycleResult :=
  tgCycle ∅ [] 5000 (fun _ => true) [lostUpdate] tgFailCycle.state
    tgFailCycle.file

end LostMessageScenario

section WitnessInputs

/-- An inbound message from the allowlisted sender of the spec's
scenario. -/
def wMsgAllowed : SmsMsg := ⟨"SM1", "inbound", some "+15550000001", some "hi"⟩

/-- An inbound message from a sender outside the allowlist. -/
def wMsgBlocked : SmsMsg := ⟨"SM2", "inbound", some "+15559999999", some "yo"⟩

/-- An outbound message (direction does not start with `"inbound"`). -/
def wMsgOutbound : SmsMsg :=
  ⟨"SM3", "outbound-api", some "+15550000001", some "x"⟩

/-- The fresh in-memory SMS poller state. -/
def smsState0 : SmsState := ⟨[], ∅, none⟩

/-- The fresh in-memory Telegram poller state. -/
def tgState0 : TgState := ⟨[], ∅, none, none⟩

/-- An authorized text update. -/
def wTgAuthorized : TgUpdate := ⟨11, some ⟨42, "hi", none, "Kid"⟩⟩

/-- An update with no `'message'` key. -/
def wTgNoMessage : TgUpdate := ⟨12, none⟩

/-- A text update from a chat outside the allowlist `{42}`. -/
def wTgBlocked : TgUpdate := ⟨13, some ⟨99, "yo", none, "Spam"⟩⟩

end WitnessInputs

/-!
## Helper lemmas
-/

theorem decodeStrs_map_str (l : List String) :
    decodeStrs (l.map Json.str) = some l := by
  induction l with
  | nil => rfl
  | cons a l ih => simp [decodeStrs, ih]

theorem decodeInts_map_num (l : List Int) :
    decodeInts (l.map Json.num) = some l := by
  induction l with
  | nil => rfl
  | cons a l ih => simp [decodeInts, ih]

theorem lastSlice_of_le {α : Type} {m : Nat} {l : List α} (h : l.length ≤ m) :
    lastSlice m l = l := by
  unfold lastSlice
  split
  · rfl
  · rw [Nat.sub_eq_zero_of_le h, List.drop_zero]

/-- Reloading what `sms_poller._save_state` wrote recovers the last
`maxState` entries of the saved sequence (all of it when it fits). -/
theorem smsLoadState_saveState (m : Nat) (order : List String) :
    smsLoadState (smsSaveState m order)
      = (lastSlice m order, (lastSlice m order).toFinset) := by
  simp [smsLoadState, smsSaveState, smsSavePayload, Json.getField,
    List.lookup, Json.asStrList?, decodeStrs_map_str]

/-- Reloading what `telegram_poller._save_state` wrote recovers the last
`maxState` entries of the saved sequence. -/
theorem tgLoadState_saveState (m : Nat) (order : List Int) :
    tgLoadState (tgSaveState m order)
      = (lastSlice m order, (lastSlice m order).toFinset) := by
  simp [tgLoadState, tgSaveState, tgSavePayload, Json.getField,
    List.lookup, Json.asIntList?, decodeInts_map_num]

section EvictionLemmas

variable {α : Type} [DecidableEq α]

theorem evictN_fst :
    ∀ (n : Nat) (order : List α) (seen : Finset α),
      (evictN n order seen).1 = order.drop n
  | 0, _, _ => rfl
  | _ + 1, [], _ => by simp [evictN]
  | n + 1, x :: xs, seen => by
    simpa [evictN] using evictN_fst n xs (seen.erase x)

theorem evictN_snd :
    ∀ (n : Nat) (order : List α) (seen : Finset α),
      order.Nodup → seen = order.toFinset →
      (evictN n order seen).2 = (order.drop n).toFinset
  | 0, _, _, _, h => h
  | _ + 1, [], _, _, h => by simpa [evictN] using h
  | n + 1, x :: xs, seen, hnd, hs => by
    have hx : x ∉ xs.toFinset := by
      simpa using (List.nodup_cons.mp hnd).1
    have : seen.erase x = xs.toFinset := by
      rw [hs, List.toFinset_cons, Finset.erase_insert hx]
    simpa [evictN] using
      evictN_snd n xs (seen.erase x) (List.nodup_cons.mp hnd).2 this

theorem evictN_snd_subset :
    ∀ (n : Nat) (order : List α) (seen : Finset α),
      (evictN n order seen).2 ⊆ seen
  | 0, _, _ => Finset.Subset.refl _
  | _ + 1, [], _ => Finset.Subset.refl _
  | n + 1, x :: xs, seen =>
    (evictN_snd_subset n xs (seen.erase x)).trans (Finset.erase_subset x seen)

theorem evictOverflow_fst (m : Nat) (order : List α) (seen : Finset α) :
    (evictOverflow m order seen).1 = order.drop (order.length - m) := by
  unfold evictOverflow
  split
  · exact evictN_fst _ _ _
  · rw [Nat.sub_eq_zero_of_le (le_of_not_lt (by assumption)), List.drop_zero]

theorem evictOverflow_length_le (m : Nat) (order : List α) (seen : Finset α) :
    (evictOverflow m order seen).1.length ≤ m := by
  rw [evictOverflow_fst, List.length_drop]
  omega

theorem evictOverflow_inv {m : Nat} {order : List α} {seen : Finset α}
    (h : ledgerInv order seen) :
    ledgerInv (evictOverflow m order seen).1 (evictOverflow m order seen).2 := by
  obtain ⟨hnd, hs⟩ := h
  constructor
  · rw [evictOverflow_fst]
    exact hnd.sublist (List.drop_sublist _ _)
  · unfold evictOverflow
    split
    · rw [evictN_snd _ _ _ hnd hs, evictN_fst]
    · exact hs

theorem evictOverflow_snd_subset (m : Nat) (order : List α) (seen : Finset α) :
    (evictOverflow m order seen).2 ⊆ seen := by
  unfold evictOverflow
  split
  · exact evictN_snd_subset _ _ _
  · exact Finset.Subset.refl _

end EvictionLemmas

section SmsBatchLemmas

variable (allow : Finset String) (contacts : List (String × String))
variable (sinkOk : SmsMsg → Bool)

theorem smsRunBatch_ok (batch : List SmsMsg) :
    ∀ st printed dirty writes,
      (smsRunBatch allow contacts (fun _ => true) batch st printed dirty
        writes).ok = true := by
  induction batch with
  | nil => intro st p d w; rfl
  | cons m rest ih =>
    intro st p d w
    by_cases h : smsShouldPrint allow (pyOr m.sender "Unknown") = true
    · simp only [smsRunBatch, h, if_true]
      exact ih _ _ _ _
    · simp only [smsRunBatch, h, if_false, Bool.false_eq_true]
      exact ih _ _ _ _

theorem smsRunBatch_writes (batch : List SmsMsg) :
    ∀ st printed dirty writes,
      (smsRunBatch allow contacts (fun _ => true) batch st printed dirty
        writes).writes
        = writes ++ batch.filter
            (fun m => smsShouldPrint allow (pyOr m.sender "Unknown")) := by
  induction batch with
  | nil => intro st p d w; simp [smsRunBatch]
  | cons m rest ih =>
    intro st p d w
    by_cases h : smsShouldPrint allow (pyOr m.sender "Unknown") = true
    · simp only [smsRunBatch, h, if_true, List.filter_cons_of_pos]
      rw [ih]
      simp
    · simp only [smsRunBatch, h, if_false, Bool.false_eq_true]
      rw [ih, List.filter_cons_of_neg (by simpa using h)]

theorem smsRunBatch_seen (batch : List SmsMsg) :
    ∀ st printed dirty writes,
      (smsRunBatch allow contacts (fun _ => true) batch st printed dirty
        writes).state.seen
        = st.seen ∪ (batch.map SmsMsg.sid).toFinset := by
  induction batch with
  | nil => intro st p d w; simp [smsRunBatch]
  | cons m rest ih =>
    intro st p d w
    by_cases h : smsShouldPrint allow (pyOr m.sender "Unknown") = true
    · simp only [smsRunBatch, h, if_true]
      rw [ih]
      simp [Finset.insert_union, Finset.union_insert]
    · simp only [smsRunBatch, h, if_false, Bool.false_eq_true]
      rw [ih]
      simp [Finset.insert_union, Finset.union_insert]

theorem smsRunBatch_seenOrder (batch : List SmsMsg) :
    ∀ st printed dirty writes,
      (smsRunBatch allow contacts (fun _ => true) batch st printed dirty
        writes).state.seenOrder
        = st.seenOrder ++ batch.map SmsMsg.sid := by
  induction batch with
  | nil => intro st p d w; simp [smsRunBatch]
  | cons m rest ih =>
    intro st p d w
    by_cases h : smsShouldPrint allow (pyOr m.sender "Unknown") = true
    · simp only [smsRunBatch, h, if_true]
      rw [ih]
      simp
    · simp only [smsRunBatch, h, if_false, Bool.false_eq_true]
      rw [ih]
      simp

/-- The Seen-Set invariant survives the batch loop whatever the sink does,
provided the batch's sids are fresh and pairwise distinct. -/
theorem smsRunBatch_inv (batch : List SmsMsg) :
    ∀ st printed dirty writes,
      ledgerInv st.seenOrder st.seen →
      (batch.map SmsMsg.sid).Nodup →
      (∀ m ∈ batch, m.sid ∉ st.seen) →
      ledgerInv
        (smsRunBatch allow contacts sinkOk batch st printed dirty
          writes).state.seenOrder
        (smsRunBatch allow contacts sinkOk batch st printed dirty
          writes).state.seen := by
  induction batch with
  | nil => intro st p d w hinv _ _; exact hinv
  | cons m rest ih =>
    intro st p d w hinv hnd hfresh
    obtain ⟨hord, hseen⟩ := hinv
    have hm : m.sid ∉ st.seen := hfresh m (List.mem_cons_self m rest)
    have hmord : m.sid ∉ st.seenOrder := fun hmem => hm (by
      rw [hseen]; exact List.mem_toFinset.mpr hmem)
    have hinv' : ledgerInv (st.seenOrder ++ [m.sid]) (insert m.sid st.seen) := by
      constructor
      · simpa [List.nodup_append] using ⟨hord, hmord⟩
      · rw [hseen]
        simp [Finset.insert_eq, Finset.union_comm]
    have hnd' : (rest.map SmsMsg.sid).Nodup := (List.nodup_cons.mp hnd).2
    have hfresh' : ∀ m' ∈ rest, m'.sid ∉ insert m.sid st.seen := by
      intro m' hm' hmem
      rcases Finset.mem_insert.mp hmem with heq | hmem'
      · exact (List.nodup_cons.mp hnd).1 (heq ▸ List.mem_map_of_mem SmsMsg.sid hm')
      · exact hfresh m' (List.mem_cons_of_mem m hm') hmem'
    by_cases h : smsShouldPrint allow (pyOr m.sender "Unknown") = true
    · by_cases hs : sinkOk m = true
      · simp only [smsRunBatch, h, hs, if_true]
        exact ih _ _ _ _ hinv' hnd' hfresh'
      · simp only [smsRunBatch, h, hs, if_true, if_false, Bool.false_eq_true]
        exact ⟨hord, hseen⟩
    · simp only [smsRunBatch, h, if_false, Bool.false_eq_true]
      exact ih _ _ _ _ hinv' hnd' hfresh'

/-- Whatever the sink does, the batch loop only ever adds sids of batch
messages to the in-memory Seen-Set. -/
theorem smsRunBatch_seen_subset (batch : List SmsMsg) :
    ∀ st printed dirty writes,
      (smsRunBatch allow contacts sinkOk batch st printed dirty
        writes).state.seen
        ⊆ st.seen ∪ (batch.map SmsMsg.sid).toFinset := by
  induction batch with
  | nil =>
    intro st p d w
    simp [smsRunBatch]
  | cons m rest ih =>
    intro st p d w
    have hstep : insert m.sid st.seen ∪ (rest.map SmsMsg.sid).toFinset
        ⊆ st.seen ∪ ((m :: rest).map SmsMsg.sid).toFinset := by
      simp [Finset.insert_union, Finset.union_insert, Finset.insert_subset_iff,
        Finset.union_subset_union, Finset.subset_insert]
    by_cases h : smsShouldPrint allow (pyOr m.sender "Unknown") = true
    · by_cases hs : sinkOk m = true
      · simp only [smsRunBatch, h, hs, if_true]
        exact (ih _ _ _ _).trans hstep
      · simp only [smsRunBatch, h, hs, if_true, if_false, Bool.false_eq_true]
        exact fun a ha => Finset.mem_union_left _ ha
    · simp only [smsRunBatch, h, if_false, Bool.false_eq_true]
      exact (ih _ _ _ _).trans hstep

/-- Whatever the sink does, every completed sink write in the batch loop
is of a batch message. -/
theorem smsRunBatch_writes_subset (batch : List SmsMsg) :
    ∀ st printed dirty writes m,
      m ∈ (smsRunBatch allow contacts sinkOk batch st printed dirty
        writes).writes →
      m ∈ writes ∨ m ∈ batch := by
  induction batch with
  | nil =>
    intro st p d w m hm
    exact Or.inl hm
  | cons x rest ih =>
    intro st p d w m hm
    by_cases h : smsShouldPrint allow (pyOr x.sender "Unknown") = true
    · by_cases hs : sinkOk x = true
      · simp only [smsRunBatch, h, hs, if_true] at hm
        rcases ih _ _ _ _ m hm with hw | hr
        · rcases List.mem_append.mp hw with hw' | hx
          · exact Or.inl hw'
          · exact Or.inr (by simpa using Or.inl (List.mem_singleton.mp hx))
        · exact Or.inr (List.mem_cons_of_mem x hr)
      · simp only [smsRunBatch, h, hs, if_true, if_false,
          Bool.false_eq_true] at hm
        exact Or.inl hm
    · simp only [smsRunBatch, h, if_false, Bool.false_eq_true] at hm
      rcases ih _ _ _ _ m hm with hw | hr
      · exact Or.inl hw
      · exact Or.inr (List.mem_cons_of_mem x hr)

end SmsBatchLemmas

section SmsFetchCycleLemmas

theorem mem_smsFetchMessages {window : List SmsMsg} {seen : Finset String}
    {m : SmsMsg} :
    m ∈ smsFetchMessages window seen ↔
      m ∈ window ∧ m.sid ∉ seen ∧ pyStartsWith m.direction "inbound" = true := by
  simp [smsFetchMessages, List.mem_filter, List.mem_reverse, and_assoc]

theorem smsFetch_sid_nodup {window : List SmsMsg} {seen : Finset String}
    (h : (window.map SmsMsg.sid).Nodup) :
    ((smsFetchMessages window seen).map SmsMsg.sid).Nodup := by
  have h1 : ((window.reverse).map SmsMsg.sid).Nodup := by
    rw [List.map_reverse, List.nodup_reverse]
    exact h
  exact h1.sublist ((List.filter_sublist _).map _)

theorem smsFetch_fresh {window : List SmsMsg} {seen : Finset String} :
    ∀ m ∈ smsFetchMessages window seen, m.sid ∉ seen :=
  fun _ hm => (mem_smsFetchMessages.mp hm).2.1

/-- Case equation for `smsCycle` in terms of the named batch step. -/
theorem smsCycle_eq (allow : Finset String)
    (contacts : List (String × String)) (maxState : Nat)
    (sinkOk : SmsMsg → Bool) (window : List SmsMsg) (st : SmsState)
    (file : FileState) :
    smsCycle allow contacts maxState sinkOk window st file =
      (let r := smsCycleBatch allow contacts sinkOk window st
       let ev := evictOverflow maxState r.state.seenOrder r.state.seen
       if r.ok then
         if r.stateDirty then
           ⟨{ r.state with seenOrder := ev.1, seen := ev.2 },
             smsSaveState maxState ev.1, r.writes, some ev.1, true⟩
         else ⟨r.state, file, r.writes, none, true⟩
       else ⟨r.state, file, r.writes, none, false⟩) := rfl

/-- Over a whole cycle, the in-memory Seen-Set only ever gains sids of
messages the fetch stage yielded. -/
theorem smsCycle_seen_subset (allow : Finset String)
    (contacts : List (String × String)) (maxState : Nat)
    (sinkOk : SmsMsg → Bool) (window : List SmsMsg) (st : SmsState)
    (file : FileState) :
    (smsCycle allow contacts maxState sinkOk window st file).state.seen
      ⊆ st.seen
        ∪ ((smsFetchMessages window st.seen).map SmsMsg.sid).toFinset := by
  have hb : (smsCycleBatch allow contacts sinkOk window st).state.seen
      ⊆ st.seen
        ∪ ((smsFetchMessages window st.seen).map SmsMsg.sid).toFinset :=
    smsRunBatch_seen_subset allow contacts sinkOk
      (smsFetchMessages window st.seen) st 0 false []
  by_cases hok : (smsCycleBatch allow contacts sinkOk window st).ok = true
  · by_cases hd :
        (smsCycleBatch allow contacts sinkOk window st).stateDirty = true
    · simpa [smsCycle_eq, hok, hd] using
        ((evictOverflow_snd_subset _ _ _).trans hb)
    · simpa [smsCycle_eq, hok, hd] using hb
  · simpa [smsCycle_eq, hok] using hb

theorem smsCycle_writes (allow : Finset String)
    (contacts : List (String × String)) (maxState : Nat)
    (sinkOk : SmsMsg → Bool) (window : List SmsMsg) (st : SmsState)
    (file : FileState) :
    (smsCycle allow contacts maxState sinkOk window st file).writes
      = (smsCycleBatch allow contacts sinkOk window st).writes := by
  by_cases hok : (smsCycleBatch allow contacts sinkOk window st).ok = true
  · by_cases hd :
        (smsCycleBatch allow contacts sinkOk window st).stateDirty = true
    · simp [smsCycle_eq, hok, hd]
    · simp [smsCycle_eq, hok, hd]
  · simp [smsCycle_eq, hok]

end SmsFetchCycleLemmas

section TelegramLemmas

/-- Whenever the Telegram batch loop runs to completion, the cursor ends
at the id of the batch's last update (or keeps its previous value on an
empty batch) — it is reassigned for every update before any check. -/
theorem tgRunBatch_cursor (allow : Finset Int)
    (contacts : List (String × Int)) (sinkOk : TgUpdate → Bool) :
    ∀ (batch : List TgUpdate) (st : TgState) (printed : Nat) (dirty : Bool)
      (writes : List TgUpdate),
      (tgRunBatch allow contacts sinkOk batch st printed dirty
        writes).ok = true →
      (tgRunBatch allow contacts sinkOk batch st printed dirty
        writes).state.lastUpdateId
        = match batch.getLast? with
          | some u => some u.updateId
          | none => st.lastUpdateId := by
  intro batch
  induction batch with
  | nil => intro st p d w _; rfl
  | cons u rest ih =>
    intro st p d w hok
    obtain ⟨so, se, ls, lu⟩ := st
    obtain ⟨uid, umsg⟩ := u
    have key : ∀ (st' : TgState), st'.lastUpdateId = some uid →
        ∀ (p' : Nat) (d' : Bool) (w' : List TgUpdate),
        (tgRunBatch allow contacts sinkOk rest st' p' d' w').ok = true →
        (tgRunBatch allow contacts sinkOk rest st' p' d'
          w').state.lastUpdateId
          = match (⟨uid, umsg⟩ :: rest : List TgUpdate).getLast? with
            | some v => some v.updateId
            | none => lu := by
      intro st' hcur p' d' w' hok'
      rw [ih st' p' d' w' hok']
      cases rest with
      | nil => simpa using hcur
      | cons v t =>
        rw [List.getLast?_cons_cons]
        obtain ⟨x, hx⟩ : ∃ x, (v :: t).getLast? = some x :=
          ⟨_, List.getLast?_eq_getLast_of_ne_nil (List.cons_ne_nil v t)⟩
        rw [hx]
    by_cases h1 : uid ∈ se
    · have hred : tgRunBatch allow contacts sinkOk (⟨uid, umsg⟩ :: rest)
          ⟨so, se, ls, lu⟩ p d w
          = tgRunBatch allow contacts sinkOk rest ⟨so, se, ls, some uid⟩
              p d w := by
        simp only [tgRunBatch]
        rw [if_pos h1]
      rw [hred] at hok ⊢
      exact key _ rfl p d w hok
    · cases umsg with
      | none =>
        have hred : tgRunBatch allow contacts sinkOk
            (⟨uid, none⟩ :: rest) ⟨so, se, ls, lu⟩ p d w
            = tgRunBatch allow contacts sinkOk rest
                ⟨so ++ [uid], insert uid se, ls, some uid⟩ p true w := by
          simp only [tgRunBatch]
          rw [if_neg h1]
        rw [hred] at hok ⊢
        exact key _ rfl p true w hok
      | some msg =>
        by_cases h2 : allow ≠ ∅ ∧ msg.chatId ∉ allow
        · have hred : tgRunBatch allow contacts sinkOk
              (⟨uid, some msg⟩ :: rest) ⟨so, se, ls, lu⟩ p d w
              = tgRunBatch allow contacts sinkOk rest
                  ⟨so ++ [uid], insert uid se, ls, some uid⟩ p true w := by
            simp only [tgRunBatch]
            rw [if_neg h1, if_pos h2]
          rw [hred] at hok ⊢
          exact key _ rfl p true w hok
        · by_cases h3 : sinkOk ⟨uid, some msg⟩ = true
          · have hred : tgRunBatch allow contacts sinkOk
                (⟨uid, some msg⟩ :: rest) ⟨so, se, ls, lu⟩ p d w
                = tgRunBatch allow contacts sinkOk rest
                    ⟨so ++ [uid], insert uid se,
                      some (tgContactLabel contacts msg.chatId), some uid⟩
                    (p + 1) true (w ++ [⟨uid, some msg⟩]) := by
              simp only [tgRunBatch]
              rw [if_neg h1, if_neg h2, if_pos h3]
            rw [hred] at hok ⊢
            exact key _ rfl (p + 1) true (w ++ [⟨uid, some msg⟩]) hok
          · have hred : (tgRunBatch allow contacts sinkOk
                (⟨uid, some msg⟩ :: rest) ⟨so, se, ls, lu⟩ p d w).ok
                = false := by
              simp only [tgRunBatch]
              rw [if_neg h1, if_neg h2, if_neg h3]
            rw [hred] at hok
            cases hok

/-- In a `≤`-sorted list of integers every element is at most the last. -/
theorem sorted_le_getLast :
    ∀ {l : List Int}, l.Sorted (· ≤ ·) → (h : l ≠ []) →
      ∀ x ∈ l, x ≤ l.getLast h
  | [], _, h, _, _ => absurd rfl h
  | [a], _, _, x, hx => by
    obtain rfl : x = a := by simpa using hx
    simp [List.getLast]
  | a :: b :: t, hs, _, x, hx => by
    rw [List.getLast_cons (List.cons_ne_nil b t)]
    rcases List.mem_cons.mp hx with rfl | hx'
    · exact List.rel_of_sorted_cons hs _
        (List.getLast_mem (List.cons_ne_nil b t))
    · exact sorted_le_getLast hs.of_cons (List.cons_ne_nil b t) x hx'

end TelegramLemmas

section WordWrapLemmas

theorem splitOnNl_ne_nil : ∀ (s : List Char), splitOnNl s ≠ []
  | [] => by simp [splitOnNl]
  | c :: cs => by
    simp only [splitOnNl]
    split
    · simp
    · split <;> simp

theorem splitOnNl_append : ∀ (xs ys : List Char), '\n' ∉ xs →
    splitOnNl (xs ++ ys) = (splitOnNl ys).modifyHead (fun l => xs ++ l)
  | [], ys, _ => by
    cases h : splitOnNl ys with
    | nil => simp [h, List.modifyHead]
    | cons a l => simp [h, List.modifyHead]
  | c :: cs, ys, hx => by
    have hc : c ≠ '\n' := fun h => hx (h ▸ List.mem_cons_self c cs)
    have hcs : '\n' ∉ cs := fun h => hx (List.mem_cons_of_mem c h)
    obtain ⟨s0, ss, hys⟩ : ∃ s0 ss, splitOnNl ys = s0 :: ss := by
      cases h : splitOnNl ys with
      | nil => exact absurd h (splitOnNl_ne_nil ys)
      | cons a l => exact ⟨a, l, rfl⟩
    have hrec : splitOnNl (cs ++ ys) = (cs ++ s0) :: ss := by
      rw [splitOnNl_append cs ys hcs, hys]
      rfl
    simp only [List.cons_append, splitOnNl, if_neg hc, List.append_eq,
      hrec, hys, List.modifyHead]

theorem splitOnNl_not_mem {p : List Char} (hp : '\n' ∉ p) :
    splitOnNl p = [p] := by
  have h := splitOnNl_append p [] hp
  simpa [splitOnNl, List.modifyHead] using h

theorem splitOnNl_joinNl : ∀ (paras : List (List Char)), paras ≠ [] →
    (∀ p ∈ paras, '\n' ∉ p) → splitOnNl (joinNl paras) = paras
  | [], h, _ => absurd rfl h
  | [p], _, hnl => by
    simp [joinNl, splitOnNl_not_mem (hnl p (by simp))]
  | p :: q :: rest, _, hnl => by
    have hred : joinNl (p :: q :: rest) = p ++ '\n' :: joinNl (q :: rest) :=
      rfl
    rw [hred, splitOnNl_append p _ (hnl p (List.mem_cons_self p _))]
    have h2 : splitOnNl ('\n' :: joinNl (q :: rest))
        = [] :: splitOnNl (joinNl (q :: rest)) := by
      simp [splitOnNl]
    rw [h2, splitOnNl_joinNl (q :: rest) (List.cons_ne_nil q rest)
      (fun x hx => hnl x (List.mem_cons_of_mem p hx))]
    simp [List.modifyHead]

theorem joinNl_facts : ∀ (paras : List (List Char)),
    (∀ p ∈ paras, '\n' ∉ p) → paras ≠ [] → paras.getLast? ≠ some [] →
    joinNl paras ≠ [] ∧ (joinNl paras).getLast? ≠ some '\n'
  | [], _, h, _ => absurd rfl h
  | [p], hnl, _, hlast => by
    have hp : p ≠ [] := fun h => hlast (by simp [h])
    refine ⟨by simpa [joinNl] using hp, ?_⟩
    have hmem : p.getLast hp ∈ p := List.getLast_mem hp
    have hne : p.getLast hp ≠ '\n' := fun h => hnl p (by simp) (h ▸ hmem)
    have hj : joinNl [p] = p := rfl
    rw [hj, List.getLast?_eq_getLast_of_ne_nil hp]
    exact fun h => hne (Option.some.inj h)
  | p :: q :: rest, hnl, _, hlast => by
    have hred : joinNl (p :: q :: rest) = p ++ '\n' :: joinNl (q :: rest) :=
      rfl
    have hlast' : (q :: rest).getLast? ≠ some [] := by
      rwa [List.getLast?_cons_cons] at hlast
    obtain ⟨hJne, hJ⟩ := joinNl_facts (q :: rest)
      (fun x hx => hnl x (List.mem_cons_of_mem p hx))
      (List.cons_ne_nil q rest) hlast'
    constructor
    · rw [hred]
      simp
    · rw [hred, List.getLast?_append_of_ne_nil _ (List.cons_ne_nil _ _)]
      obtain ⟨j, t, hjt⟩ : ∃ j t, joinNl (q :: rest) = j :: t := by
        cases h : joinNl (q :: rest) with
        | nil => exact absurd h hJne
        | cons a l => exact ⟨a, l, rfl⟩
      rw [hjt, List.getLast?_cons_cons, ← hjt]
      exact hJ

theorem pySplitlinesChars_joinNl {paras : List (List Char)}
    (hne : paras ≠ []) (hnl : ∀ p ∈ paras, '\n' ∉ p)
    (hlast : paras.getLast? ≠ some []) :
    pySplitlinesChars (joinNl paras) = paras := by
  obtain ⟨hjne, hj⟩ := joinNl_facts paras hnl hne hlast
  unfold pySplitlinesChars
  rw [if_neg hjne, if_neg hj]
  exact splitOnNl_joinNl paras hne hnl

end WordWrapLemmas

/-!
## Claim theorems
-/

/-- C7: `_load_state` returns the empty ledger (empty sequence and empty
set) when the state file is absent or its contents are unparseable, for
both pollers, rather than raising an error. -/
theorem loadState_absent_or_unparseable_empty :
    smsLoadState none = ([], ∅) ∧ smsLoadState (some none) = ([], ∅) ∧
    tgLoadState none = ([], ∅) ∧ tgLoadState (some none) = ([], ∅) :=
  ⟨rfl, rfl, rfl, rfl⟩

/-- C5 counterexample: with `maxEntries = 1`, persisting the ledger
`["a", "b"]` with `_save_state` and reloading with `_load_state` yields
`["b"]`, not the identical sequence — `_save_state` truncates to the last
`maxEntries` entries. -/
theorem saveLoad_roundtrip_counterexample :
    (smsLoadState (smsSaveState 1 ["a", "b"])).1 ≠ ["a", "b"] := by
  decide

/-- C5 amended: for every ledger whose length is at most `maxEntries`,
persisting with `_save_state` and reloading with `_load_state` yields the
identical ordered sequence (over-long ledgers are truncated to their most
recent `maxEntries` entries instead); both pollers. -/
theorem saveLoad_roundtrip_of_le {m : Nat} {order : List String}
    {tgOrder : List Int} (h : order.length ≤ m) (h2 : tgOrder.length ≤ m) :
    smsLoadState (smsSaveState m order) = (order, order.toFinset) ∧
    tgLoadState (tgSaveState m tgOrder) = (tgOrder, tgOrder.toFinset) := by
  rw [smsLoadState_saveState, tgLoadState_saveState, lastSlice_of_le h,
    lastSlice_of_le h2]
  exact ⟨rfl, rfl⟩

theorem saveLoad_roundtrip_of_le_witness :
    (["a", "b"] : List String).length ≤ 5 ∧ ([7, 8] : List Int).length ≤ 5 ∧
    (smsLoadState (smsSaveState 5 ["a", "b"])
        = (["a", "b"], (["a", "b"] : List String).toFinset) ∧
     tgLoadState (tgSaveState 5 [7, 8])
        = ([7, 8], ([7, 8] : List Int).toFinset)) :=
  ⟨by decide, by decide, saveLoad_roundtrip_of_le (by decide) (by decide)⟩

/-- C4 counterexample: at a concrete input, the file-system trace of
`_save_state` is not of the write-to-temporary-then-replace shape the
claim requires. -/
theorem persist_no_temp_then_replace_counterexample :
    ¬ isTempThenReplace "/home/pi/.kidfax_state.json"
        (smsSaveStateOps "/home/pi/.kidfax_state.json" 5000 ["SM1"]) := by
  rintro ⟨tmp, payload, -, heq⟩
  simp [smsSaveStateOps] at heq

/-- C4 amended: `_save_state` performs exactly one file-system operation —
a direct in-place write of the full payload to the state file path, with
no temporary file and no rename, in both pollers; the half of the claim
that does hold is that an unparseable file (e.g. left by an interrupted
write) does not break `_load_state`, which returns the empty ledger. -/
theorem persist_direct_write_and_tolerant_load :
    (∀ p m (order : List String),
      smsSaveStateOps p m order = [.writeFile p (smsSavePayload m order)] ∧
      ¬ isTempThenReplace p (smsSaveStateOps p m order)) ∧
    (∀ p m (order : List Int),
      tgSaveStateOps p m order = [.writeFile p (tgSavePayload m order)] ∧
      ¬ isTempThenReplace p (tgSaveStateOps p m order)) ∧
    smsLoadState (some none) = ([], ∅) ∧
    tgLoadState (some none) = ([], ∅) := by
  refine ⟨fun p m order => ⟨rfl, ?_⟩, fun p m order => ⟨rfl, ?_⟩, rfl, rfl⟩
  · rintro ⟨tmp, payload, -, heq⟩
    simp [smsSaveStateOps] at heq
  · rintro ⟨tmp, payload, -, heq⟩
    simp [tgSaveStateOps] at heq

theorem persist_direct_write_and_tolerant_load_witness :
    smsSaveStateOps "s.json" 3 ["SM1"]
      = [.writeFile "s.json" (smsSavePayload 3 ["SM1"])] :=
  (persist_direct_write_and_tolerant_load.1 "s.json" 3 ["SM1"]).1

/-- C9: each poller's persist writes a JSON object holding only its own
ledger key and replaces the whole file, so after one poller persists to a
shared state file the other poller's key is absent and its load yields the
empty ledger. -/
theorem persist_erases_other_pollers_key :
    (∀ m (order : List String),
      (smsSavePayload m order).getField "seen_update_ids" = none ∧
      tgLoadState (smsSaveState m order) = ([], ∅)) ∧
    (∀ m (order : List Int),
      (tgSavePayload m order).getField "seen_sids" = none ∧
      smsLoadState (tgSaveState m order) = ([], ∅)) :=
  ⟨fun _ _ => ⟨rfl, rfl⟩, fun _ _ => ⟨rfl, rfl⟩⟩

theorem persist_erases_other_pollers_key_witness :
    (smsSavePayload 3 ["SM1"]).getField "seen_update_ids" = none ∧
    tgLoadState (smsSaveState 3 ["SM1"]) = ([], ∅) :=
  persist_erases_other_pollers_key.1 3 ["SM1"]

/-- C2: over one poll cycle with a provider window of pairwise-distinct
sids, the Seen-Set invariant (membership set = contents of the sequence,
hence equal sizes) is preserved; whenever the cycle persists, the
persisted sequence is obtained from the batch-extended sequence by
dropping exactly the oldest surplus entries from the front (FIFO), its
length never exceeds `maxEntries`, and it reloads to exactly that
sequence and set; when nothing is persisted the file is untouched. -/
theorem seenSet_bounded_fifo_consistent (allow : Finset String)
    (contacts : List (String × String)) (maxState : Nat)
    (sinkOk : SmsMsg → Bool) (window : List SmsMsg) (st : SmsState)
    (file : FileState) (r : SmsCycleResult) (rb : SmsBatchResult)
    (hinv : ledgerInv st.seenOrder st.seen)
    (hwin : (window.map SmsMsg.sid).Nodup)
    (hr : r = smsCycle allow contacts maxState sinkOk window st file)
    (hrb : rb = smsCycleBatch allow contacts sinkOk window st) :
    ledgerInv r.state.seenOrder r.state.seen ∧
    r.state.seen.card = r.state.seenOrder.length ∧
    (∀ o, r.saved = some o →
      o = rb.state.seenOrder.drop (rb.state.seenOrder.length - maxState) ∧
      o.length ≤ maxState ∧
      o = r.state.seenOrder ∧
      smsLoadState r.file = (o, o.toFinset)) ∧
    (r.saved = none → r.file = file) := by
  subst hr hrb
  have hbinv : ledgerInv
      (smsCycleBatch allow contacts sinkOk window st).state.seenOrder
      (smsCycleBatch allow contacts sinkOk window st).state.seen :=
    smsRunBatch_inv allow contacts sinkOk _ st 0 false [] hinv
      (smsFetch_sid_nodup hwin) smsFetch_fresh
  have hcard : ∀ (order : List String) (seen : Finset String),
      ledgerInv order seen → seen.card = order.length := by
    intro order seen hiv
    rw [hiv.2]
    exact List.toFinset_card_of_nodup hiv.1
  by_cases hok : (smsCycleBatch allow contacts sinkOk window st).ok = true
  · by_cases hd :
        (smsCycleBatch allow contacts sinkOk window st).stateDirty = true
    · have hev := evictOverflow_inv (m := maxState) hbinv
      have hlen := evictOverflow_length_le maxState
        (smsCycleBatch allow contacts sinkOk window st).state.seenOrder
        (smsCycleBatch allow contacts sinkOk window st).state.seen
      simp only [smsCycle_eq, hok, hd, if_true]
      refine ⟨hev, hcard _ _ hev, ?_, by simp⟩
      intro o ho
      obtain rfl : (evictOverflow maxState
          (smsCycleBatch allow contacts sinkOk window st).state.seenOrder
          (smsCycleBatch allow contacts sinkOk window st).state.seen).1 = o :=
        Option.some.inj ho
      exact ⟨evictOverflow_fst _ _ _, hlen, rfl,
        by rw [smsLoadState_saveState, lastSlice_of_le hlen]⟩
    · simp only [smsCycle_eq, hok, hd, if_true]
      exact ⟨hbinv, hcard _ _ hbinv, by simp, fun _ => rfl⟩
  · simp only [smsCycle_eq, hok, if_false]
    exact ⟨hbinv, hcard _ _ hbinv, by simp, fun _ => rfl⟩

/-- C3: with a sink whose writes all succeed, the batch loop completes; a
sink write occurs for a batch message iff the allowlist is empty or the
message's sender is a member; in both cases (printed or rejected) the
message's id is added to the Seen-Set, and a message whose id is in the
Seen-Set is never yielded by any later fetch. -/
theorem allowlist_gates_writes_and_marks_seen (allow : Finset String)
    (contacts : List (String × String)) (batch : List SmsMsg)
    (st : SmsState) (r : SmsBatchResult)
    (hr : r = smsRunBatch allow contacts (fun _ => true) batch st 0 false []) :
    r.ok = true ∧
    r.writes = batch.filter
      (fun m => smsShouldPrint allow (pyOr m.sender "Unknown")) ∧
    (∀ m ∈ batch,
      (m ∈ r.writes ↔ (allow = ∅ ∨ pyOr m.sender "Unknown" ∈ allow)) ∧
      m.sid ∈ r.state.seen ∧
      ∀ window, m ∉ smsFetchMessages window r.state.seen) := by
  subst hr
  have hwr := smsRunBatch_writes allow contacts batch st 0 false []
  have hseen := smsRunBatch_seen allow contacts batch st 0 false []
  refine ⟨smsRunBatch_ok allow contacts batch st 0 false [],
    by simpa using hwr, ?_⟩
  intro m hm
  have hmseen : m.sid ∈ (smsRunBatch allow contacts (fun _ => true) batch st
      0 false []).state.seen := by
    rw [hseen]
    exact Finset.mem_union_right _
      (List.mem_toFinset.mpr (List.mem_map_of_mem _ hm))
  refine ⟨?_, hmseen, ?_⟩
  · rw [hwr]
    simp only [List.nil_append, List.mem_filter]
    constructor
    · rintro ⟨-, hp⟩
      by_cases ha : allow = ∅
      · exact Or.inl ha
      · right
        simpa [smsShouldPrint, ha] using hp
    · intro h
      refine ⟨hm, ?_⟩
      rcases h with ha | hmem
      · simp [smsShouldPrint, ha]
      · by_cases ha : allow = ∅
        · simp [smsShouldPrint, ha]
        · simp [smsShouldPrint, ha, hmem]
  · intro w hmem
    exact (mem_smsFetchMessages.mp hmem).2.1 hmseen

/-- C10: the SMS fetch stage yields exactly the window messages that are
unseen and whose direction starts with `"inbound"`; a message with any
other direction is not fetched by the cycle, never written to the sink,
and its id is not added to the Seen-Set, so every later fetch re-examines
(and again skips) it while it stays in the provider window. -/
theorem fetch_inbound_only_and_skipped_not_marked :
    (∀ (window : List SmsMsg) (seen : Finset String) (m : SmsMsg),
      m ∈ smsFetchMessages window seen ↔
        m ∈ window ∧ m.sid ∉ seen ∧
        pyStartsWith m.direction "inbound" = true) ∧
    (∀ (allow : Finset String) (contacts : List (String × String))
        (maxState : Nat) (sinkOk : SmsMsg → Bool) (window : List SmsMsg)
        (st : SmsState) (file : FileState) (m : SmsMsg),
      (window.map SmsMsg.sid).Nodup → m ∈ window →
      pyStartsWith m.direction "inbound" = false → m.sid ∉ st.seen →
      m ∉ smsFetchMessages window st.seen ∧
      m ∉ (smsCycle allow contacts maxState sinkOk window st file).writes ∧
      m.sid ∉ (smsCycle allow contacts maxState sinkOk window st
        file).state.seen) := by
  refine ⟨fun _ _ _ => mem_smsFetchMessages, ?_⟩
  intro allow contacts maxState sinkOk window st file m hwin hm hdir hfresh
  have hnotfetch : m ∉ smsFetchMessages window st.seen := by
    intro hmem
    rw [(mem_smsFetchMessages.mp hmem).2.2] at hdir
    exact Bool.true_eq_false.mp hdir
  refine ⟨hnotfetch, ?_, ?_⟩
  · intro hmem
    rw [smsCycle_writes] at hmem
    rcases smsRunBatch_writes_subset allow contacts sinkOk _ st 0 false []
      m hmem with hw | hf
    · exact (List.not_mem_nil m) hw
    · exact hnotfetch hf
  · intro hsid
    rcases Finset.mem_union.mp
        (smsCycle_seen_subset allow contacts maxState sinkOk window st file
          hsid) with hold | hnew
    · exact hfresh hold
    · obtain ⟨m', hm', heq⟩ :=
        List.mem_map.mp (List.mem_toFinset.mp hnew)
      obtain rfl : m' = m :=
        List.inj_on_of_nodup_map hwin
          (mem_smsFetchMessages.mp hm').1 hm heq
      exact hnotfetch hm'

theorem fetch_inbound_only_and_skipped_not_marked_witness :
    (([wMsgOutbound, wMsgAllowed].map SmsMsg.sid).Nodup) ∧
    wMsgOutbound ∈ [wMsgOutbound, wMsgAllowed] ∧
    pyStartsWith wMsgOutbound.direction "inbound" = false ∧
    wMsgOutbound.sid ∉ smsState0.seen ∧
    (wMsgOutbound ∉
        smsFetchMessages [wMsgOutbound, wMsgAllowed] smsState0.seen ∧
      wMsgOutbound ∉ (smsCycle ∅ [] 5000 (fun _ => true)
        [wMsgOutbound, wMsgAllowed] smsState0 none).writes ∧
      wMsgOutbound.sid ∉ (smsCycle ∅ [] 5000 (fun _ => true)
        [wMsgOutbound, wMsgAllowed] smsState0 none).state.seen) :=
  ⟨by decide, by decide, by decide, by decide,
    fetch_inbound_only_and_skipped_not_marked.2 ∅ [] 5000 (fun _ => true)
      [wMsgOutbound, wMsgAllowed] smsState0 none wMsgOutbound
      (by decide) (by decide) (by decide) (by decide)⟩

theorem allowlist_gates_writes_and_marks_seen_witness :
    let r := smsRunBatch {"+15550000001"} [] (fun _ => true)
      [wMsgAllowed, wMsgBlocked] smsState0 0 false []
    r.ok = true ∧
    r.writes = [wMsgAllowed, wMsgBlocked].filter
      (fun m => smsShouldPrint {"+15550000001"} (pyOr m.sender "Unknown")) ∧
    (∀ m ∈ [wMsgAllowed, wMsgBlocked],
      (m ∈ r.writes ↔ (({"+15550000001"} : Finset String) = ∅ ∨
        pyOr m.sender "Unknown" ∈ ({"+15550000001"} : Finset String))) ∧
      m.sid ∈ r.state.seen ∧
      ∀ window, m ∉ smsFetchMessages window r.state.seen) :=
  allowlist_gates_writes_and_marks_seen {"+15550000001"} []
    [wMsgAllowed, wMsgBlocked] smsState0 _ rfl

theorem seenSet_bounded_fifo_consistent_witness :
    ledgerInv smsState0.seenOrder smsState0.seen ∧
    (([wMsgAllowed, wMsgBlocked].map SmsMsg.sid).Nodup) ∧
    (let r := smsCycle ∅ [] 1 (fun _ => true) [wMsgAllowed, wMsgBlocked]
       smsState0 none
     let rb := smsCycleBatch ∅ [] (fun _ => true)
       [wMsgAllowed, wMsgBlocked] smsState0
     ledgerInv r.state.seenOrder r.state.seen ∧
     r.state.seen.card = r.state.seenOrder.length ∧
     (∀ o, r.saved = some o →
       o = rb.state.seenOrder.drop (rb.state.seenOrder.length - 1) ∧
       o.length ≤ 1 ∧
       o = r.state.seenOrder ∧
       smsLoadState r.file = (o, o.toFinset)) ∧
     (r.saved = none → r.file = none)) :=
  ⟨⟨by decide, by decide⟩, by decide,
    seenSet_bounded_fifo_consistent ∅ [] 1 (fun _ => true)
      [wMsgAllowed, wMsgBlocked] smsState0 none _ _
      ⟨by decide, by decide⟩ (by decide) rfl rfl⟩

/-- C1, the code evaluated at the failing input: when the printer write
raises on `lostUpdate`, its id is — as the claim says — neither in the
in-memory Seen-Set nor persisted; but `last_update_id` has already been
advanced to its update id before the write, so the next `getUpdates` call
(offset = cursor + 1) no longer returns the update: it is never surfaced
again and its id never reaches the Seen-Set even after the sink recovers,
instead of being retried as the claim states. -/
theorem tg_write_failure_loses_message :
    tgFailCycle.ok = false ∧
    (5 : Int) ∉ tgFailCycle.state.seen ∧
    tgFailCycle.file = none ∧
    tgFailCycle.state.lastUpdateId = some 5 ∧
    tgGetUpdates [lostUpdate] (tgOffset tgFailCycle.state.lastUpdateId)
      = [] ∧
    tgRetryCycle.writes = [] ∧
    (5 : Int) ∉ tgRetryCycle.state.seen :=
  ⟨rfl, by decide, rfl, rfl, by decide, by decide, by decide⟩

/-- C6: when the Telegram batch loop completes on a batch that is sorted
by update id (the `getUpdates` API contract), the resulting cursor is
`some M` where `M` is the maximum update id observed in the batch; the
cursor is reassigned for every update before the seen, message-shape and
allowlist checks, so this holds regardless of which updates were
authorized to print or skipped. -/
theorem tg_cursor_advances_to_batch_max (allow : Finset Int)
    (contacts : List (String × Int)) (sinkOk : TgUpdate → Bool)
    (updates : List TgUpdate) (st : TgState) (r : TgBatchResult)
    (hr : r = tgRunBatch allow contacts sinkOk updates st 0 false [])
    (hs : (updates.map TgUpdate.updateId).Sorted (· ≤ ·))
    (hne : updates ≠ []) (hok : r.ok = true) :
    ∃ M, r.state.lastUpdateId = some M ∧
      M ∈ updates.map TgUpdate.updateId ∧
      ∀ i ∈ updates.map TgUpdate.updateId, i ≤ M := by
  subst hr
  have hmapne : updates.map TgUpdate.updateId ≠ [] := by
    simpa using hne
  have hcur := tgRunBatch_cursor allow contacts sinkOk updates st 0 false []
    hok
  refine ⟨(updates.getLast hne).updateId, ?_, ?_, ?_⟩
  · rw [hcur, List.getLast?_eq_getLast_of_ne_nil hne]
  · exact List.mem_map_of_mem _ (List.getLast_mem hne)
  · intro i hi
    have hlm : (updates.map TgUpdate.updateId).getLast hmapne
        = (updates.getLast hne).updateId :=
      List.getLast_map _ _ hmapne
    rw [← hlm]
    exact sorted_le_getLast hs hmapne i hi

theorem tg_cursor_advances_to_batch_max_witness :
    (([wTgAuthorized, wTgNoMessage, wTgBlocked].map
        TgUpdate.updateId).Sorted (· ≤ ·)) ∧
    [wTgAuthorized, wTgNoMessage, wTgBlocked] ≠ [] ∧
    (tgRunBatch {42} [] (fun _ => true)
        [wTgAuthorized, wTgNoMessage, wTgBlocked] tgState0 0 false []).ok
      = true ∧
    (∃ M, (tgRunBatch {42} [] (fun _ => true)
        [wTgAuthorized, wTgNoMessage, wTgBlocked] tgState0 0 false
        []).state.lastUpdateId = some M ∧
      M ∈ [wTgAuthorized, wTgNoMessage, wTgBlocked].map TgUpdate.updateId ∧
      ∀ i ∈ [wTgAuthorized, wTgNoMessage, wTgBlocked].map
        TgUpdate.updateId, i ≤ M) :=
  ⟨by decide, by decide, by decide,
    tg_cursor_advances_to_batch_max {42} [] (fun _ => true)
      [wTgAuthorized, wTgNoMessage, wTgBlocked] tgState0 _ rfl
      (by decide) (by decide) (by decide)⟩

/-- C8: `_wrap_text` splits the body on existing line breaks first and
then wraps each paragraph independently at the configured column width
(greedy word filling, no hyphen ever inserted), with an empty source line
preserved as one empty output line; and on the spec's example, width 10
wraps "hello world foo" to ["hello", "world foo"]. -/
theorem wrapText_splits_then_wraps (width : Nat)
    (parasC : List (List Char)) (hne : parasC ≠ [])
    (hnl : ∀ p ∈ parasC, '\n' ∉ p) (hlast : parasC.getLast? ≠ some []) :
    wrapText width ⟨joinNl parasC⟩
      = parasC.flatMap (fun p => wrapPara width ⟨p⟩) ∧
    wrapPara width "" = [""] ∧
    wrapText 10 "hello world foo" = ["hello", "world foo"] := by
  refine ⟨?_, rfl, by rfl⟩
  have hps : pySplitlines ⟨joinNl parasC⟩
      = parasC.map (fun cs => (⟨cs⟩ : String)) := by
    unfold pySplitlines
    rw [show (String.mk (joinNl parasC)).data = joinNl parasC from rfl,
      pySplitlinesChars_joinNl hne hnl hlast]
  unfold wrapText
  rw [hps]
  obtain ⟨p0, ps, hpp⟩ : ∃ p0 ps, parasC = p0 :: ps := by
    cases parasC with
    | nil => exact absurd rfl hne
    | cons a l => exact ⟨a, l, rfl⟩
  subst hpp
  show (List.map (fun cs => (⟨cs⟩ : String)) (p0 :: ps)).flatMap
      (wrapPara width)
    = (p0 :: ps).flatMap fun p => wrapPara width ⟨p⟩
  exact List.flatMap_map _ _ _

theorem wrapText_splits_then_wraps_witness :
    ([['h', 'i'], [], ['y', 'o', ' ', 'h', 'o']] : List (List Char)) ≠ [] ∧
    (∀ p ∈ ([['h', 'i'], [], ['y', 'o', ' ', 'h', 'o']] :
      List (List Char)), '\n' ∉ p) ∧
    ([['h', 'i'], [], ['y', 'o', ' ', 'h', 'o']] :
      List (List Char)).getLast? ≠ some [] ∧
    (wrapText 2 ⟨joinNl [['h', 'i'], [], ['y', 'o', ' ', 'h', 'o']]⟩
      = ([['h', 'i'], [], ['y', 'o', ' ', 'h', 'o']] :
          List (List Char)).flatMap (fun p => wrapPara 2 ⟨p⟩) ∧
     wrapPara 2 "" = [""] ∧
     wrapText 10 "hello world foo" = ["hello", "world foo"]) :=
  ⟨by decide, by decide, by decide,
    wrapText_splits_then_wraps 2 [['h', 'i'], [], ['y', 'o', ' ', 'h', 'o']]
      (by decide) (by decide) (by decide)⟩

end KidFax
